import Mathlib

/-!
Verification development for the greezez/MPSCQueue repository
(src/MPSCQueue.hpp, namespace greezez — the later of the two drafts in that
header, which is the one the specification describes; src/details.hpp holds
an alternative draft of the same allocator).

The embedding models the sequential (single-thread) semantics of the code:
atomic loads/stores become plain reads/writes, a compare-exchange succeeds
exactly when the expected value matches (in a single-thread execution no
other thread can invalidate the comparison, and a spurious weak-CAS failure
only repeats the loop body with unchanged state, so modelling the weak CAS
as succeeding is observationally equivalent), and size_t arithmetic is
carried out modulo 2^64.  Pointers are modelled as abstract addresses
(Nat), a null pointer as Option.none.
-/

namespace MPSC

/-- Modulus of size_t arithmetic (LP64 target, as assumed by the static
asserts in the source). -/
def SizeTMod : Nat := 2 ^ 64

/-- Modulus of uint32_t arithmetic, for the static_cast that stores a
block offset into the handle's uint32_t offset_ field. -/
def U32Mod : Nat := 2 ^ 32

/-- State bit of a UniqueData handle (enum UniqueData::State in
src/MPSCQueue.hpp). -/
inductive DState where
  | Recorded
  | Utilized
deriving DecidableEq, Repr

/-- Origin tag of a UniqueData handle (enum UniqueData::AllocType in
src/MPSCQueue.hpp). -/
inductive AllocTy where
  | Pool
  | Heap
deriving DecidableEq, Repr

/-- The queue-relevant fields of a UniqueData node: the state_ byte and the
next_ pointer.  Node identity (the address of the UniqueData object) is a
Nat; a null next_ pointer is none. -/
structure Node where
  state : DState
  next : Option Nat
deriving DecidableEq, Repr

/-- Pointwise update of a node map, modelling a write through a UniqueData
pointer. -/
def upd (f : Nat → Node) (i : Nat) (v : Node) : Nat → Node :=
  fun j => if j = i then v else f j

/-- State of a greezez::mpsc::Queue together with the memory holding the
UniqueData nodes: head_ and tail_ (atomic pointers, never null in any
reachable state), the node map, and the numOfInQueue_ counter
(atomic size_t). -/
structure QState where
  nodes : Nat → Node
  headQ : Option Nat
  tailQ : Option Nat
  cnt : Nat

/-- Loop body of Queue::push (src/MPSCQueue.hpp lines 1038-1066), iterated
up to the given fuel; none means the fuel was exhausted before the loop
returned (the loop itself has no exit path that returns false after a
non-null check, so the trailing return false in the source is dead code).
The weak CAS on tail->next_ and the strong CAS on tail_ succeed exactly
when the compared value still matches, which in a sequential execution is
determined by the state read in the same iteration. -/
def pushAux : QState → Nat → Nat → Option (QState × Bool)
  | _, _, 0 => none
  | s, h, fuel + 1 =>
    match s.tailQ with
    | none => none
    | some t =>
      match (s.nodes t).next with
      | none =>
        let s1 : QState := { s with nodes := upd s.nodes t { s.nodes t with next := some h } }
        let s2 : QState := if s1.tailQ = some t then { s1 with tailQ := some h } else s1
        some ({ s2 with cnt := (s2.cnt + 1) % SizeTMod }, true)
      | some nx =>
        let s1 : QState := if s.tailQ = some t then { s with tailQ := some nx } else s
        pushAux s1 h fuel

/-- Queue::push: a null argument is rejected before the loop; otherwise the
CAS loop runs (modelled with explicit fuel). -/
def push (s : QState) (h : Option Nat) (fuel : Nat) : Option (QState × Bool) :=
  match h with
  | none => some (s, false)
  | some v => pushAux s v fuel

/-- Loop body of Queue::pop (src/MPSCQueue.hpp lines 981-1027).  The only
path that re-enters the loop clears firstTry, so the loop body runs at most
twice; pop below therefore supplies fuel 2, making the fuel-0 branch
unreachable from pop. -/
def popGo : QState → Bool → Nat → QState × Option Nat
  | s, _, 0 => (s, none)
  | s, firstTry, fuel + 1 =>
    match s.headQ, s.tailQ with
    | some h, some t =>
      let tailNext := (s.nodes t).next
      if h = t then
        if (s.nodes h).state = DState.Recorded then
          ({ s with nodes := upd s.nodes h { s.nodes h with state := DState.Utilized } }, some h)
        else
          match tailNext with
          | some tn => (if s.tailQ = some t then { s with tailQ := some tn } else s, none)
          | none => (s, none)
      else
        let headNext := (s.nodes h).next
        let s1 : QState := { s with headQ := headNext, cnt := (s.cnt + (SizeTMod - 1)) % SizeTMod }
        if (s1.nodes h).state = DState.Utilized then
          if firstTry then popGo s1 false fuel else (s1, none)
        else
          ({ s1 with nodes := upd s1.nodes h { s1.nodes h with state := DState.Utilized } }, some h)
    | _, _ => (s, none)

/-- Queue::pop, the loop entered with firstTry = true. -/
def pop (s : QState) : QState × Option Nat :=
  popGo s true 2

/-- State of a freshly constructed Queue whose dummy node has address d:
head_ = tail_ = dummy, the dummy is built by the UniqueData(nullptr_t, ...)
constructor (state_ = Utilized, next_ = null), and every other address
holds a freshly default-constructed UniqueData (state_ = Recorded,
next_ = null), which is how handles look when they reach push. -/
def freshQueue (d : Nat) : QState :=
  { nodes := upd (fun _ => { state := DState.Recorded, next := none }) d
      { state := DState.Utilized, next := none }
    headQ := some d
    tailQ := some d
    cnt := 0 }

/-- Push a list of handles in order, each with the given fuel; none if some
push ran out of fuel. -/
def pushAllO : QState → List Nat → Nat → Option QState
  | s, [], _ => some s
  | s, h :: rest, fuel =>
    match push s (some h) fuel with
    | some (s1, _) => pushAllO s1 rest fuel
    | none => none

/-- Results of n successive pop calls. -/
def popN : QState → Nat → List (Option Nat)
  | _, 0 => []
  | s, n + 1 => (pop s).2 :: popN (pop s).1 n

/-- Header fields of a greezez::details::Data block (struct Data::Header in
src/MPSCQueue.hpp): the outstanding-acquire counter, the bump offset in
chunks, the chunk capacity, and the flag word that reset() tests. -/
structure DataB where
  numOfAcquired : Nat
  offset : Nat
  blockCount : Nat
  flag : Nat
deriving DecidableEq, Repr

/-- Data::Data(blockCount, success): a freshly constructed block header
(the success = false malloc-failure path constructs no header at all). -/
def freshData (blockCount : Nat) : DataB :=
  { numOfAcquired := 0, offset := 0, blockCount := blockCount, flag := 0 }

/-- Data::reset (private, src/MPSCQueue.hpp lines 629-643): second
component true means the caller must fail the allocation. -/
def dataReset (b : DataB) : DataB × Bool :=
  if b.flag = 0 then (b, false)
  else if b.numOfAcquired = 0 then ({ b with offset := 0, flag := 0 }, false)
  else (b, true)

/-- Data::acquire(blockCount) (src/MPSCQueue.hpp lines 595-612).  A
successful result is the chunk offset at which the returned region starts
(the returned pointer is data_ + HeaderSize + offset * BlockSize).  The
capacity test uses size_t subtraction; Nat truncated subtraction agrees
with it because offset ≤ blockCount holds in every header state this code
can produce from a block of capacity ≥ 1. -/
def dataAcquire (b : DataB) (need : Nat) : DataB × Option Nat :=
  let r := dataReset b
  if r.2 then (r.1, none)
  else if need > r.1.blockCount - r.1.offset then
    ({ r.1 with offset := 1 }, none)
  else
    ({ r.1 with
        offset := r.1.offset + need,
        numOfAcquired := (r.1.numOfAcquired + 1) % SizeTMod }, some r.1.offset)

/-- Effect on a Data header of the numOfAcquired.fetch_sub(1) performed by
UniqueData::release for a pool-backed handle resolving to this block. -/
def dataRelease (b : DataB) : DataB :=
  { b with numOfAcquired := (b.numOfAcquired + (SizeTMod - 1)) % SizeTMod }

/-- A greezez::mpsc::UniqueDataPool together with its details::List of Data
blocks: blocks in list order (head first; emplaceFront prepends), cur the
index of the list's current_ cursor. -/
structure PoolSt where
  dataBlockSize : Nat
  blocks : List DataB
  cur : Nat
deriving DecidableEq, Repr

/-- List::updateCurrent: step current_ to its next node, or back to head_
when current_ is the last node. -/
def updateCurrent (p : PoolSt) : PoolSt :=
  if p.cur + 1 < p.blocks.length then { p with cur := p.cur + 1 }
  else { p with cur := 0 }

/-- List::emplaceAndUpdateCurrent with a freshly constructed Data block:
on an empty list this is emplaceFront (which also seats the cursor);
otherwise the node is linked right after current_ and becomes current_. -/
def emplaceAndUpdateCurrent (p : PoolSt) (b : DataB) : PoolSt :=
  if p.blocks.isEmpty then { p with blocks := [b], cur := 0 }
  else { p with
    blocks := p.blocks.take (p.cur + 1) ++ b :: p.blocks.drop (p.cur + 1)
    cur := p.cur + 1 }

/-- sizeof(UniqueData) on the LP64 layout the source assumes: state_ (1) +
allocType_ (1) + padding (2) + offset_ (4) + data_ (8) + next_ (8). -/
def UniqueDataSize : Nat := 24

/-- The constexpr chunk count computed by
UniqueDataPool::tryAcquire<TypeSize> (src/MPSCQueue.hpp lines 875-876). -/
def blockCountFor (typeSize : Nat) : Nat :=
  if UniqueDataSize + typeSize ≤ 64 then 1
  else (UniqueDataSize + typeSize) / 64 + 1

/-- Following the specification's words, not the source: the chunk count
the spec states, ceil((sizeof(header) + size) / C) with C = 64. -/
def specChunkCount (typeSize : Nat) : Nat :=
  (UniqueDataSize + typeSize + 63) / 64

/-- Provenance data of a successful pool allocation: which block served
it, the currentOffset read before Data::acquire after its truncation by
static_cast<uint32_t> (this value is stored into the handle's uint32_t
offset_ field, so storedOffset < 2^32), and the untruncated size_t chunk
offset at which the returned region actually starts. -/
structure HInfo where
  blockIdx : Nat
  storedOffset : Nat
  allocOffset : Nat
deriving DecidableEq, Repr

/-- UniqueDataPool::tryAcquire<TypeSize> (src/MPSCQueue.hpp lines
872-900), its at-most-two-attempt loop unrolled: the firstTry flag is
cleared by the only path that re-enters the loop.  The source reads
uint32_t currentOffset = static_cast<uint32_t>(data.offset()), so the
size_t offset is truncated modulo 2^32 before it is stored. -/
def poolTryAcquire (p : PoolSt) (typeSize : Nat) : PoolSt × Option HInfo :=
  match p.blocks[p.cur]? with
  | none => (p, none)
  | some b =>
    let co := b.offset % U32Mod
    let res := dataAcquire b (blockCountFor typeSize)
    let p1 : PoolSt := { p with blocks := p.blocks.set p.cur res.1 }
    match res.2 with
    | some off => (p1, some { blockIdx := p.cur, storedOffset := co, allocOffset := off })
    | none =>
      let p2 := updateCurrent p1
      match p2.blocks[p2.cur]? with
      | none => (p2, none)
      | some b2 =>
        let co2 := b2.offset % U32Mod
        let res2 := dataAcquire b2 (blockCountFor typeSize)
        let p3 : PoolSt := { p2 with blocks := p2.blocks.set p2.cur res2.1 }
        match res2.2 with
        | some off2 => (p3, some { blockIdx := p2.cur, storedOffset := co2, allocOffset := off2 })
        | none => (p3, none)

/-- UniqueDataPool::acquire<TypeSize> (src/MPSCQueue.hpp lines 906-919):
tryAcquire, then on failure grow by one fresh Data(dataBlockSize_) spliced
in as the new current (growOk models whether that system allocation
succeeds) and retry tryAcquire once. -/
def poolAcquire (p : PoolSt) (typeSize : Nat) (growOk : Bool) : PoolSt × Option HInfo :=
  match poolTryAcquire p typeSize with
  | (p1, some h) => (p1, some h)
  | (p1, none) =>
    if growOk then
      poolTryAcquire (emplaceAndUpdateCurrent p1 (freshData p1.dataBlockSize)) typeSize
    else (p1, none)

/-- The fields of a UniqueData handle that release() reads: data_ (an
abstract byte address; none models nullptr), allocType_ and the uint32_t
offset_ field (every value actually stored in it is < 2^32, because
tryAcquire writes only static_cast<uint32_t> results there). -/
structure UD where
  state : DState
  allocType : AllocTy
  offset : Nat
  dataAddr : Option Nat
deriving DecidableEq, Repr

/-- Data::HeaderSize: sizeof(Data::Header) = 128, enforced by the
static assert in the source. -/
def HeaderSize : Nat := 128

/-- Data::BlockSize = GREEZEZ_CACHE_LINE_SIZE = 64. -/
def BlockSize : Nat := 64

/-- Memory as observed by UniqueData::release: the numOfAcquired counter of
the Data header residing at each address, and how many times the storage at
each address has been passed to std::free. -/
structure Mem where
  acquiresAt : Nat → Nat
  freedAt : Nat → Nat

/-- UniqueData::release (src/MPSCQueue.hpp lines 776-791): a no-op when
data_ is null; std::free(data_) for a heap handle; otherwise decrement the
numOfAcquired of the header computed as
data_ - (HeaderSize + offset_ * BlockSize).  The handle fields themselves
are never written (data_ in particular stays as it was), so the unchanged
handle is returned alongside the memory. -/
def releaseUD (u : UD) (m : Mem) : UD × Mem :=
  match u.dataAddr with
  | none => (u, m)
  | some a =>
    match u.allocType with
    | AllocTy.Heap =>
      (u, { m with freedAt := fun x => if x = a then m.freedAt a + 1 else m.freedAt x })
    | AllocTy.Pool =>
      let hdr := a - (HeaderSize + u.offset * BlockSize)
      (u, { m with acquiresAt := fun x =>
        if x = hdr then (m.acquiresAt hdr + (SizeTMod - 1)) % SizeTMod
        else m.acquiresAt x })

/-- The UniqueData that UniqueDataPool::tryAcquire constructs from a
successful pool allocation, given the base address of the serving block's
arena (the block's data_ pointer): the object is placement-new()ed at
base + HeaderSize + allocOffset * BlockSize, and offset_ records
storedOffset. -/
def mkPoolUD (base : Nat) (info : HInfo) : UD :=
  { state := DState.Recorded
    allocType := AllocTy.Pool
    offset := info.storedOffset
    dataAddr := some (base + HeaderSize + info.allocOffset * BlockSize) }

/-- A list is a well-formed handle chain under a node map: each node links
to the following one, the last node has a null next_ pointer, and every
node on it is still in the Recorded state. -/
def chainOK (f : Nat → Node) : List Nat → Prop
  | [] => True
  | a :: rest => (f a).state = DState.Recorded ∧ (f a).next = rest.head? ∧ chainOK f rest

/-- Queue state between construction and the first pop, after the handles
in l have been pushed in order: head_ still points at the dummy d, the
chain runs d :: l, the tail is the last of d :: l, and the pushed handles
are all Recorded. -/
structure Mid (s : QState) (d : Nat) (l : List Nat) : Prop where
  head_eq : s.headQ = some d
  dummy_state : (s.nodes d).state = DState.Utilized
  dummy_next : (s.nodes d).next = l.head?
  tail_eq : s.tailQ = some (l.getLastD d)
  chain : chainOK s.nodes l
  nodup : (d :: l).Nodup

/-- Queue state in mid-drain, the dummy already detached: head_ points at
the first pending handle a, the chain runs a :: rest, all pending handles
Recorded. -/
structure Ready (s : QState) (a : Nat) (rest : List Nat) : Prop where
  head_eq : s.headQ = some a
  tail_eq : s.tailQ = some (rest.getLastD a)
  chain : chainOK s.nodes (a :: rest)
  nodup : (a :: rest).Nodup

/-- Queue state once every pushed handle has been consumed: head_ and tail_
agree on a Utilized node with a null next_, exactly the shape of a freshly
constructed queue. -/
structure Drained (s : QState) (x : Nat) : Prop where
  head_eq : s.headQ = some x
  tail_eq : s.tailQ = some x
  state_eq : (s.nodes x).state = DState.Utilized
  next_eq : (s.nodes x).next = none

/-- A pool-backed handle as tryAcquire builds it from a block whose arena
base is 4096, allocated at chunk offset 0 (data_ = 4096 + HeaderSize). -/
def c2PoolHandle : UD :=
  { state := DState.Recorded
    allocType := AllocTy.Pool
    offset := 0
    dataAddr := some (4096 + HeaderSize) }

/-- A heap-backed handle (UniqueData::make) whose malloc returned 500. -/
def c2HeapHandle : UD :=
  { state := DState.Recorded
    allocType := AllocTy.Heap
    offset := 0
    dataAddr := some 500 }

/-- A memory in which every block header shows one live acquisition and
nothing has been freed yet. -/
def c2Mem : Mem :=
  { acquiresAt := fun _ => 1
    freedAt := fun _ => 0 }

/-- Witness pool for the provenance round trip: one fresh 4-chunk block. -/
def c8Pool : PoolSt := { dataBlockSize := 4, blocks := [freshData 4], cur := 0 }

/-- The pool c8Pool after a successful 1-chunk tryAcquire. -/
def c8Pool1 : PoolSt :=
  { dataBlockSize := 4
    blocks := [{ numOfAcquired := 1, offset := 1, blockCount := 4, flag := 0 }]
    cur := 0 }

/-- Provenance of that allocation: block 0, chunk offset 0. -/
def c8Info : HInfo := { blockIdx := 0, storedOffset := 0, allocOffset := 0 }

/-- Memory whose every header counter reads 1 (the post-acquire value). -/
def c8Mem : Mem := { acquiresAt := fun _ => 1, freedAt := fun _ => 0 }

/-- A pool whose current block has bumped past 2^32 chunks (a 256 GiB-plus
arena, blockCount = 2^32 + 4, offset = 2^32): the next stored
static_cast<uint32_t> offset truncates to 0. -/
def cxPool : PoolSt :=
  { dataBlockSize := 4
    blocks := [{ numOfAcquired := 0, offset := 4294967296, blockCount := 4294967300, flag := 0 }]
    cur := 0 }

/-- Provenance of the allocation cxPool serves: the region really starts at
chunk 2^32, but the handle's uint32_t offset_ records 0. -/
def cxInfo : HInfo := { blockIdx := 0, storedOffset := 0, allocOffset := 4294967296 }

theorem getLastD_nil (a : Nat) : ([] : List Nat).getLastD a = a := rfl

theorem upd_self (f : Nat → Node) (i : Nat) (v : Node) : upd f i v i = v := by
  simp [upd]

theorem upd_ne (f : Nat → Node) (i j : Nat) (v : Node) (h : j ≠ i) : upd f i v j = f j := by
  simp [upd, h]

theorem lastD_mem_self : ∀ (l : List Nat) (a : Nat), l ≠ [] → l.getLastD a ∈ l
  | [], _, h => absurd rfl h
  | [b], _, _ => List.mem_cons_self b []
  | b :: c :: l3, a, _ => by
    rw [List.getLastD_cons]
    exact List.mem_cons_of_mem b (lastD_mem_self (c :: l3) b (by simp))

theorem lastD_mem (l : List Nat) (a : Nat) : l.getLastD a ∈ a :: l := by
  cases l with
  | nil => exact List.mem_cons_self a []
  | cons b l2 =>
    exact List.mem_cons_of_mem a (lastD_mem_self (b :: l2) a (by simp))

theorem chainOK_lastD_next : ∀ (l : List Nat) (f : Nat → Node) (a : Nat),
    l ≠ [] → chainOK f l → (f (l.getLastD a)).next = none
  | [], _, _, h, _ => absurd rfl h
  | [b], f, a, _, hc => by
    rcases hc with ⟨_, h2, _⟩
    simpa using h2
  | b :: c :: l2, f, a, _, hc => by
    rcases hc with ⟨_, _, hc2⟩
    rw [List.getLastD_cons]
    exact chainOK_lastD_next (c :: l2) f b (by simp) hc2

theorem chainOK_upd_not_mem : ∀ (l : List Nat) (f : Nat → Node) (x : Nat) (v : Node),
    x ∉ l → chainOK f l → chainOK (upd f x v) l
  | [], _, _, _, _, _ => trivial
  | b :: l2, f, x, v, hx, hc => by
    rcases hc with ⟨h1, h2, h3⟩
    have hbx : b ≠ x := fun h => hx (h ▸ List.mem_cons_self b l2)
    refine ⟨?_, ?_, ?_⟩
    · rw [upd_ne f x b v hbx]; exact h1
    · rw [upd_ne f x b v hbx]; exact h2
    · exact chainOK_upd_not_mem l2 f x v (fun h => hx (List.mem_cons_of_mem b h)) h3

theorem chainOK_snoc : ∀ (l : List Nat) (f : Nat → Node) (a h : Nat) (v : Node),
    chainOK f l → (a :: l).Nodup → h ∉ a :: l →
    (f h).state = DState.Recorded → (f h).next = none →
    v.next = some h →
    v.state = (f (l.getLastD a)).state →
    chainOK (upd f (l.getLastD a) v) (l ++ [h])
  | [], f, a, h, v, _, _, hnm, hst, hnx, _, _ => by
    have hha : h ≠ a := by simp at hnm; exact hnm
    refine ⟨?_, ?_, trivial⟩
    · show (upd f a v h).state = DState.Recorded
      rw [upd_ne _ _ _ _ hha]; exact hst
    · show (upd f a v h).next = [].head?
      rw [upd_ne _ _ _ _ hha]; simpa using hnx
  | b :: l2, f, a, h, v, hc, hnd, hnm, hst, hnx, hvn, hvs => by
    rcases hc with ⟨h1, h2, h3⟩
    have hhb : h ≠ b := by
      intro he
      exact hnm (by rw [he]; exact List.mem_cons_of_mem a (List.mem_cons_self b l2))
    cases l2 with
    | nil =>
      rw [List.getLastD_cons] at hvs ⊢
      refine ⟨?_, ?_, ?_, ?_, trivial⟩
      · show (upd f b v b).state = DState.Recorded
        rw [upd_self]; rw [hvs]; exact h1
      · show (upd f b v b).next = [h].head?
        rw [upd_self]; simpa using hvn
      · show (upd f b v h).state = DState.Recorded
        rw [upd_ne _ _ _ _ hhb]; exact hst
      · show (upd f b v h).next = [].head?
        rw [upd_ne _ _ _ _ hhb]; simpa using hnx
    | cons c l3 =>
      rw [List.getLastD_cons] at hvs ⊢
      have htmem : (c :: l3).getLastD b ∈ c :: l3 := lastD_mem_self (c :: l3) b (by simp)
      have hbnd : (b :: c :: l3).Nodup := (List.nodup_cons.mp hnd).2
      have hbt : b ≠ (c :: l3).getLastD b := by
        intro he
        exact (List.nodup_cons.mp hbnd).1 (by rw [he]; exact htmem)
      refine ⟨?_, ?_, ?_⟩
      · rw [upd_ne _ _ _ _ hbt]; exact h1
      · rw [upd_ne _ _ _ _ hbt]; rw [h2]; rfl
      · exact chainOK_snoc (c :: l3) f b h v h3 hbnd
          (fun hm => hnm (List.mem_cons_of_mem a hm)) hst hnx hvn hvs

/-- The state a successful push produces in a sequential execution: the old
tail node gains h as successor, tail_ moves to h, the counter is bumped. -/
def pushedState (s : QState) (t h : Nat) : QState :=
  { s with
    nodes := upd s.nodes t { s.nodes t with next := some h }
    tailQ := some h
    cnt := (s.cnt + 1) % SizeTMod }

theorem push_eq_of_tail_next_none (s : QState) (t h fuel : Nat)
    (ht : s.tailQ = some t) (hn : (s.nodes t).next = none) :
    push s (some h) (fuel + 1) = some (pushedState s t h, true) := by
  obtain ⟨f, hq, tq, c⟩ := s
  simp only at ht hn
  subst ht
  simp [push, pushAux, pushedState, hn]

theorem push_mid (s : QState) (d h fuel : Nat) (l : List Nat)
    (hm : Mid s d l)
    (hh : s.nodes h = { state := DState.Recorded, next := none })
    (hnm : h ∉ d :: l) :
    push s (some h) (fuel + 1) = some (pushedState s (l.getLastD d) h, true) ∧
    Mid (pushedState s (l.getLastD d) h) d (l ++ [h]) ∧
    (∀ x, x ∉ d :: l → (pushedState s (l.getLastD d) h).nodes x = s.nodes x) := by
  have htn : (s.nodes (l.getLastD d)).next = none := by
    cases l with
    | nil => exact hm.dummy_next
    | cons b l2 => exact chainOK_lastD_next (b :: l2) s.nodes d (by simp) hm.chain
  have htmem : l.getLastD d ∈ d :: l := lastD_mem l d
  refine ⟨push_eq_of_tail_next_none s _ h fuel hm.tail_eq htn, ?_, ?_⟩
  · refine ⟨?_, ?_, ?_, ?_, ?_, ?_⟩
    · exact hm.head_eq
    · show (upd s.nodes (l.getLastD d) _ d).state = DState.Utilized
      cases l with
      | nil => rw [getLastD_nil, upd_self]; exact hm.dummy_state
      | cons b l2 =>
        have hdt : d ≠ (b :: l2).getLastD d := by
          intro he
          exact (List.nodup_cons.mp hm.nodup).1 (by rw [he]; exact lastD_mem_self _ d (by simp))
        rw [upd_ne _ _ _ _ hdt]; exact hm.dummy_state
    · show (upd s.nodes (l.getLastD d) _ d).next = (l ++ [h]).head?
      cases l with
      | nil => rw [getLastD_nil, upd_self]; rfl
      | cons b l2 =>
        have hdt : d ≠ (b :: l2).getLastD d := by
          intro he
          exact (List.nodup_cons.mp hm.nodup).1 (by rw [he]; exact lastD_mem_self _ d (by simp))
        rw [upd_ne _ _ _ _ hdt]
        rw [hm.dummy_next]; rfl
    · show some h = some ((l ++ [h]).getLastD d)
      rw [List.getLastD_concat]
    · exact chainOK_snoc l s.nodes d h _ hm.chain hm.nodup hnm
        (by rw [hh]) (by rw [hh]) rfl rfl
    · have h2 : (d :: (l ++ [h])) = (d :: l) ++ h :: [] := by simp
      rw [h2, List.nodup_middle, List.append_nil, List.nodup_cons]
      exact ⟨hnm, hm.nodup⟩
  · intro x hx
    have hxt : x ≠ l.getLastD d := fun he => hx (he ▸ htmem)
    show upd s.nodes (l.getLastD d) _ x = s.nodes x
    rw [upd_ne _ _ _ _ hxt]

theorem pushAll_mid : ∀ (l2 : List Nat) (s : QState) (d fuel : Nat) (l1 : List Nat),
    Mid s d l1 →
    (∀ x ∈ l2, s.nodes x = { state := DState.Recorded, next := none }) →
    ((d :: l1) ++ l2).Nodup →
    ∃ s1, pushAllO s l2 (fuel + 1) = some s1 ∧ Mid s1 d (l1 ++ l2)
  | [], s, d, fuel, l1, hm, _, _ => ⟨s, rfl, by simpa using hm⟩
  | h :: rest, s, d, fuel, l1, hm, hfresh, hnd => by
    have hsplit := List.nodup_cons.mp (List.nodup_middle.mp hnd)
    have hnm : h ∉ d :: l1 := fun hmem => hsplit.1 (List.mem_append_left rest hmem)
    obtain ⟨heq, hmid, hpres⟩ :=
      push_mid s d h fuel l1 hm (hfresh h (List.mem_cons_self h rest)) hnm
    have hdisj := (List.nodup_append.mp hsplit.2).2.2
    have hfresh2 : ∀ x ∈ rest, (pushedState s (l1.getLastD d) h).nodes x =
        { state := DState.Recorded, next := none } := by
      intro x hx
      have hxnm : x ∉ d :: l1 := fun hmem => hdisj hmem hx
      rw [hpres x hxnm]; exact hfresh x (List.mem_cons_of_mem h hx)
    have hnd2 : ((d :: (l1 ++ [h])) ++ rest).Nodup := by
      have : (d :: (l1 ++ [h])) ++ rest = (d :: l1) ++ h :: rest := by simp
      rw [this]; exact hnd
    obtain ⟨s1, hps, hm1⟩ := pushAll_mid rest (pushedState s (l1.getLastD d) h) d fuel
      (l1 ++ [h]) hmid hfresh2 hnd2
    refine ⟨s1, ?_, ?_⟩
    · show pushAllO s (h :: rest) (fuel + 1) = some s1
      unfold pushAllO
      rw [heq]
      exact hps
    · have : (l1 ++ [h]) ++ rest = l1 ++ h :: rest := by simp
      rw [← this]; exact hm1

theorem mid_nil_drained (s : QState) (d : Nat) (hm : Mid s d []) : Drained s d :=
  ⟨hm.head_eq, hm.tail_eq, hm.dummy_state, hm.dummy_next⟩

theorem pop_drained (s : QState) (x : Nat) (hd : Drained s x) : pop s = (s, none) := by
  obtain ⟨f, hq, tq, c⟩ := s
  have h1 := hd.head_eq
  have h2 := hd.tail_eq
  have h3 := hd.state_eq
  have h4 := hd.next_eq
  simp only at h1 h2 h3 h4
  subst h1 h2
  simp [pop, popGo, h3, h4]

theorem popGo_ready_cons (s : QState) (a b : Nat) (r2 : List Nat) (ft : Bool) (fuel : Nat)
    (hr : Ready s a (b :: r2)) :
    (popGo s ft (fuel + 1)).2 = some a ∧ Ready (popGo s ft (fuel + 1)).1 b r2 := by
  obtain ⟨hhq, htq, hch, hnd⟩ := hr
  obtain ⟨hsa, hna, hcb⟩ := hch
  have hanb : a ∉ b :: r2 := (List.nodup_cons.mp hnd).1
  have hat : a ≠ (b :: r2).getLastD a := by
    intro he
    exact hanb (by rw [he]; exact lastD_mem_self _ a (by simp))
  rw [List.getLastD_eq_getLast?] at hat
  obtain ⟨f, hq, tq, c⟩ := s
  simp only at hhq htq hsa hna hcb
  subst hhq htq
  refine ⟨?_, ?_, ?_, ?_, ?_⟩
  · simp [popGo, hat, hsa, hna]
  · simp [popGo, hat, hsa, hna]
  · simp [popGo, hat, hsa, hna]
    rw [← List.getLastD_eq_getLast?, ← List.getLastD_eq_getLast?, List.getLastD_cons]
  · simp [popGo, hat, hsa, hna]
    exact chainOK_upd_not_mem (b :: r2) f a _ hanb hcb
  · exact (List.nodup_cons.mp hnd).2

theorem popGo_ready_single (s : QState) (a : Nat) (ft : Bool) (fuel : Nat)
    (hr : Ready s a []) :
    (popGo s ft (fuel + 1)).2 = some a ∧ Drained (popGo s ft (fuel + 1)).1 a := by
  obtain ⟨hhq, htq, hch, _⟩ := hr
  obtain ⟨hsa, hna, _⟩ := hch
  obtain ⟨f, hq, tq, c⟩ := s
  simp only at hhq htq hsa hna
  subst hhq htq
  refine ⟨?_, ?_, ?_, ?_, ?_⟩
  · simp [popGo, hsa]
  · simp [popGo, hsa]
  · simp [popGo, hsa]
  · simp [popGo, hsa, upd_self]
  · simp [popGo, hsa, upd_self]
    simpa using hna

theorem pop_mid_step (s : QState) (d a : Nat) (rest : List Nat)
    (hm : Mid s d (a :: rest)) :
    ∃ s1, pop s = popGo s1 false 1 ∧ Ready s1 a rest := by
  obtain ⟨hhq, hds, hdn, htq, hch, hnd⟩ := hm
  have hdnr : d ∉ a :: rest := (List.nodup_cons.mp hnd).1
  have hdt : d ≠ (a :: rest).getLastD d := by
    intro he
    exact hdnr (by rw [he]; exact lastD_mem_self _ d (by simp))
  rw [List.getLastD_eq_getLast?] at hdt
  obtain ⟨f, hq, tq, c⟩ := s
  simp only at hhq hds hdn htq hch
  subst hhq htq
  refine ⟨{ nodes := f, headQ := some a,
            tailQ := some ((a :: rest).getLast?.getD d),
            cnt := (c + (SizeTMod - 1)) % SizeTMod }, ?_, ?_, ?_, ?_, ?_⟩
  · simp [pop, popGo, hdt, hds, hdn]
  · rfl
  · show some ((a :: rest).getLast?.getD d) = some (rest.getLastD a)
    rw [← List.getLastD_eq_getLast?, List.getLastD_cons]
  · exact hch
  · exact (List.nodup_cons.mp hnd).2

theorem popN_ready : ∀ (rest : List Nat) (a : Nat) (s : QState), Ready s a rest →
    popN s (rest.length + 2) = ((a :: rest).map some) ++ [none]
  | [], a, s, hr => by
    obtain ⟨h2a, hdra⟩ := popGo_ready_single s a true 1 hr
    have h2 : (pop s).2 = some a := h2a
    have hdr : Drained (pop s).1 a := hdra
    have h3 := pop_drained (pop s).1 a hdr
    show (pop s).2 :: (pop (pop s).1).2 :: popN (pop (pop s).1).1 0 = [some a, none]
    rw [h3]
    show (pop s).2 :: none :: popN (pop s).1 0 = [some a, none]
    rw [h2]
    rfl
  | b :: r2, a, s, hr => by
    obtain ⟨h2a, hrda⟩ := popGo_ready_cons s a b r2 true 1 hr
    have h2 : (pop s).2 = some a := h2a
    have hrd : Ready (pop s).1 b r2 := hrda
    have hih := popN_ready r2 b (pop s).1 hrd
    show (pop s).2 :: popN (pop s).1 (r2.length + 2) = _
    rw [h2, hih]
    rfl

theorem popN_mid (s : QState) (d : Nat) (l : List Nat) (hm : Mid s d l) :
    popN s (l.length + 1) = (l.map some) ++ [none] := by
  cases l with
  | nil =>
    have h3 := pop_drained s d (mid_nil_drained s d hm)
    show (pop s).2 :: popN (pop s).1 0 = [none]
    rw [h3]
    rfl
  | cons a rest =>
    obtain ⟨s1, hps, hrdy⟩ := pop_mid_step s d a rest hm
    cases rest with
    | nil =>
      obtain ⟨h2, hdr⟩ := popGo_ready_single s1 a false 0 hrdy
      rw [← hps] at h2 hdr
      have h3 := pop_drained (pop s).1 a hdr
      show (pop s).2 :: (pop (pop s).1).2 :: popN (pop (pop s).1).1 0 = [some a, none]
      rw [h3]
      show (pop s).2 :: none :: popN (pop s).1 0 = [some a, none]
      rw [h2]
      rfl
    | cons b r2 =>
      obtain ⟨h2, hrd⟩ := popGo_ready_cons s1 a b r2 false 0 hrdy
      rw [← hps] at h2 hrd
      have hih := popN_ready r2 b (pop s).1 hrd
      show (pop s).2 :: popN (pop s).1 (r2.length + 2) = _
      rw [h2, hih]
      rfl

/-- C1: sequential round-trip FIFO.  Pushing K distinct handles (all
different from the dummy d) into a freshly constructed queue and then
popping K+1 times yields exactly the K handles, each once, in push order,
followed by null.  fuel is the number of push-loop iterations allowed; one
suffices sequentially. -/
theorem queue_seq_round_trip (d : Nat) (l : List Nat) (fuel : Nat)
    (hnd : (d :: l).Nodup) :
    ∃ s1, pushAllO (freshQueue d) l (fuel + 1) = some s1 ∧
      popN s1 (l.length + 1) = (l.map some) ++ [none] := by
  have hm0 : Mid (freshQueue d) d [] := by
    refine ⟨rfl, ?_, ?_, rfl, trivial, by simp⟩
    · show (upd _ d { state := DState.Utilized, next := none } d).state = DState.Utilized
      rw [upd_self]
    · show (upd _ d { state := DState.Utilized, next := none } d).next = ([] : List Nat).head?
      rw [upd_self]
      rfl
  have hfresh : ∀ x ∈ l, (freshQueue d).nodes x =
      { state := DState.Recorded, next := none } := by
    intro x hx
    have hxd : x ≠ d := by
      intro he
      exact (List.nodup_cons.mp hnd).1 (he ▸ hx)
    show upd (fun _ => { state := DState.Recorded, next := none }) d
      { state := DState.Utilized, next := none } x =
      { state := DState.Recorded, next := none }
    rw [upd_ne _ _ _ _ hxd]
  obtain ⟨s1, hps, hmid⟩ :=
    pushAll_mid l (freshQueue d) d fuel [] hm0 hfresh (by simpa using hnd)
  exact ⟨s1, hps, popN_mid s1 d l (by simpa using hmid)⟩

/-- Witness for queue_seq_round_trip at d = 0, l = [1, 2, 3], fuel = 0. -/
theorem queue_seq_round_trip_witness :
    (0 :: [1, 2, 3]).Nodup ∧
    ∃ s1, pushAllO (freshQueue 0) [1, 2, 3] (0 + 1) = some s1 ∧
      popN s1 ([1, 2, 3].length + 1) = ([1, 2, 3].map some) ++ [none] :=
  ⟨by decide, queue_seq_round_trip 0 [1, 2, 3] 0 (by decide)⟩

/-- C5: Queue::push returns false exactly on a null handle, in which case
the state is completely unchanged, and returns true on every non-null
handle (the hypotheses say tail_ is a real node whose next_ is null, which
holds in every sequentially reachable queue state). -/
theorem push_null_false_nonnull_true (s : QState) (t h fuel : Nat)
    (ht : s.tailQ = some t) (hn : (s.nodes t).next = none) :
    push s none fuel = some (s, false) ∧
    ∃ s1, push s (some h) (fuel + 1) = some (s1, true) :=
  ⟨rfl, ⟨pushedState s t h, push_eq_of_tail_next_none s t h fuel ht hn⟩⟩

/-- Witness for push_null_false_nonnull_true on a fresh queue. -/
theorem push_null_false_nonnull_true_witness :
    (freshQueue 0).tailQ = some 0 ∧ ((freshQueue 0).nodes 0).next = none ∧
    (push (freshQueue 0) none 0 = some (freshQueue 0, false) ∧
     ∃ s1, push (freshQueue 0) (some 1) (0 + 1) = some (s1, true)) :=
  ⟨rfl, rfl, push_null_false_nonnull_true (freshQueue 0) 0 1 0 rfl rfl⟩

/-- C10: pop decrements numOfInQueue_ on every head_ advance, including
the advance that discards the utilized dummy: after pushing handles 1 and 2
into a fresh queue, one pop returns handle 1 yet leaves the counter at 0,
and handle 2 is still there for the next pop. -/
theorem pop_counter_dummy_skip :
    (pushAllO (freshQueue 0) [1, 2] 1).map
      (fun s0 => ((pop s0).2, (pop s0).1.cnt, (pop (pop s0).1).2)) =
      some (some 1, 0, some 2) := by
  rfl

/-- C2 at the failing input: UniqueData::release never clears data_, so a
second release of the same still-valid handle is not a no-op.  For the
pool handle the block counter 1 drops to 0 on the first release and then
wraps to 2^64 - 1 on the second; for the heap handle the storage is passed
to std::free twice. -/
theorem release_second_call_not_noop :
    (releaseUD c2PoolHandle c2Mem).1 = c2PoolHandle ∧
    (releaseUD c2PoolHandle c2Mem).2.acquiresAt 4096 = 0 ∧
    (releaseUD (releaseUD c2PoolHandle c2Mem).1
      (releaseUD c2PoolHandle c2Mem).2).2.acquiresAt 4096 = SizeTMod - 1 ∧
    (releaseUD (releaseUD c2HeapHandle c2Mem).1
      (releaseUD c2HeapHandle c2Mem).2).2.freedAt 500 = 2 := by
  refine ⟨rfl, ?_, ?_, ?_⟩ <;> decide

/-- C3 at the failing input: Data(4); acquire(4) fills the block from chunk
0; the failed over-capacity acquire(1) writes offset = 1 instead of setting
the seal flag; after the lone handle is released the block is fully
drained, yet the next acquire(1) hands out the region at chunk offset 1,
not chunk 0. -/
theorem block_reuse_not_at_chunk_zero :
    (dataAcquire (freshData 4) 4).2 = some 0 ∧
    (dataAcquire (dataAcquire (freshData 4) 4).1 1).2 = none ∧
    (dataRelease (dataAcquire (dataAcquire (freshData 4) 4).1 1).1).numOfAcquired = 0 ∧
    (dataAcquire (dataRelease (dataAcquire (dataAcquire (freshData 4) 4).1 1).1) 1).2
      = some 1 := by
  refine ⟨?_, ?_, ?_, ?_⟩ <;> decide

/-- C4 at the failing input: Data(4); the over-capacity acquire(5) returns
null but leaves flag at 0 (it writes offset = 1 instead), so the block is
not sealed and the very next acquire(1) succeeds, returning chunk 1. -/
theorem sealed_block_still_allocates :
    (dataAcquire (freshData 4) 5).2 = none ∧
    (dataAcquire (freshData 4) 5).1.flag = 0 ∧
    (dataAcquire ((dataAcquire (freshData 4) 5).1) 1).2 = some 1 := by
  refine ⟨?_, ?_, ?_⟩ <;> decide

/-- C9 at the failing input: Data(4); acquire(3) returns chunks [0, 3); the
failed acquire(2) resets offset to 1; the next acquire(2) then returns
chunks [1, 3) while the first allocation is still unreleased (both
acquisitions live), and the two regions overlap. -/
theorem live_allocations_overlap :
    (dataAcquire (freshData 4) 3).2 = some 0 ∧
    (dataAcquire (dataAcquire (freshData 4) 3).1 2).2 = none ∧
    (dataAcquire (dataAcquire (dataAcquire (freshData 4) 3).1 2).1 2).2 = some 1 ∧
    (dataAcquire (dataAcquire (dataAcquire (freshData 4) 3).1 2).1 2).1.numOfAcquired = 2 ∧
    1 < 0 + 3 ∧ 0 < 1 + 2 := by
  refine ⟨?_, ?_, ?_, ?_, ?_, ?_⟩ <;> decide

/-- C7 counterexample: at payload size 104, sizeof(UniqueData) + 104 = 128
is exactly 2 chunks, but the code reserves 128 / 64 + 1 = 3 chunks, not
ceil(128 / 64) = 2 as the specification states. -/
theorem chunk_count_not_ceil : blockCountFor 104 ≠ specChunkCount 104 := by
  decide

/-- C7 amended: the reserved chunk count is 1 when sizeof(UniqueData) +
size ≤ 64 and floor((sizeof(UniqueData) + size) / 64) + 1 otherwise; this
equals the ceiling formula except when sizeof(UniqueData) + size is a
multiple of 64 strictly greater than 64, where it reserves one chunk
more. -/
theorem chunk_count_formula (typeSize : Nat) :
    blockCountFor typeSize =
      if (UniqueDataSize + typeSize) % 64 = 0 ∧ 64 < UniqueDataSize + typeSize
      then specChunkCount typeSize + 1
      else specChunkCount typeSize := by
  unfold blockCountFor specChunkCount UniqueDataSize
  by_cases h1 : 24 + typeSize ≤ 64
  · rw [if_pos h1, if_neg (by omega)]
    omega
  · rw [if_neg h1]
    by_cases h2 : (24 + typeSize) % 64 = 0 ∧ 64 < 24 + typeSize
    · rw [if_pos h2]
      omega
    · rw [if_neg h2]
      omega

/-- C6 counterexample: a pool of one-chunk blocks asked for a 64-byte
payload (which needs 2 chunks) returns null from acquire even though the
growth allocation succeeded (growOk = true): the freshly spliced-in block
is too small for the request just like every other block. -/
theorem pool_acquire_null_despite_growth :
    (poolAcquire { dataBlockSize := 1, blocks := [freshData 1], cur := 0 } 64 true).2
      = none := by
  decide

theorem dataAcquire_eq_fail (b : DataB) (k : Nat) (hf : b.flag = 0)
    (hcap : k > b.blockCount - b.offset) :
    dataAcquire b k = ({ b with offset := 1 }, none) := by
  simp [dataAcquire, dataReset, hf, hcap]

theorem dataAcquire_eq_succ (b : DataB) (k : Nat) (hf : b.flag = 0)
    (hcap : ¬ k > b.blockCount - b.offset) :
    dataAcquire b k =
      ({ b with
          offset := b.offset + k,
          numOfAcquired := (b.numOfAcquired + 1) % SizeTMod }, some b.offset) := by
  simp [dataAcquire, dataReset, hf, hcap]

theorem mem_of_getElem?_blocks (l : List DataB) (i : Nat) (b : DataB)
    (h : l[i]? = some b) : b ∈ l := by
  have h2 := List.getElem?_eq_some.mp h
  obtain ⟨hlt, heq⟩ := h2
  exact heq ▸ List.getElem_mem hlt

theorem pool_tryAcquire_provenance (p : PoolSt) (ts : Nat) (p1 : PoolSt) (info : HInfo)
    (hflag : ∀ b ∈ p.blocks, b.flag = 0)
    (hres : poolTryAcquire p ts = (p1, some info)) :
    info.storedOffset = info.allocOffset % U32Mod ∧
    p1.blocks[info.blockIdx]?.map DataB.numOfAcquired =
      (p.blocks[info.blockIdx]?.map DataB.numOfAcquired).map (fun n => (n + 1) % SizeTMod) ∧
    ∀ j, j ≠ info.blockIdx →
      p1.blocks[j]?.map DataB.numOfAcquired = p.blocks[j]?.map DataB.numOfAcquired := by
  unfold poolTryAcquire at hres
  cases hb : p.blocks[p.cur]? with
  | none => rw [hb] at hres; simp at hres
  | some b =>
    rw [hb] at hres
    simp only [] at hres
    have hcl : p.cur < p.blocks.length := (List.getElem?_eq_some.mp hb).1
    have hbf : b.flag = 0 := hflag b (mem_of_getElem?_blocks _ _ _ hb)
    by_cases hcap : blockCountFor ts > b.blockCount - b.offset
    · -- first attempt fails, second attempt decides
      rw [dataAcquire_eq_fail b _ hbf hcap] at hres
      simp only [] at hres
      set q : PoolSt := updateCurrent
        { p with blocks := p.blocks.set p.cur { b with offset := 1 } } with hq
      have hqblocks : q.blocks = p.blocks.set p.cur { b with offset := 1 } := by
        rw [hq]; unfold updateCurrent; split <;> rfl
      cases hb2 : q.blocks[q.cur]? with
      | none => rw [hb2] at hres; simp at hres
      | some b2 =>
        rw [hb2] at hres
        simp only [] at hres
        have hcl2 : q.cur < q.blocks.length := (List.getElem?_eq_some.mp hb2).1
        have hb2f : b2.flag = 0 := by
          have hmem : b2 ∈ q.blocks := mem_of_getElem?_blocks _ _ _ hb2
          rw [hqblocks] at hmem
          rcases List.mem_or_eq_of_mem_set hmem with hm | hm
          · exact hflag b2 hm
          · rw [hm]
            exact hbf
        by_cases hcap2 : blockCountFor ts > b2.blockCount - b2.offset
        · rw [dataAcquire_eq_fail b2 _ hb2f hcap2] at hres
          simp only [] at hres
          simp at hres
        · rw [dataAcquire_eq_succ b2 _ hb2f hcap2] at hres
          simp only [] at hres
          injection hres with h1 h2
          injection h2 with h2
          subst h1
          subst h2
          refine ⟨rfl, ?_, ?_⟩
          · show (q.blocks.set q.cur _)[q.cur]?.map DataB.numOfAcquired = _
            rw [List.getElem?_set_self hcl2]
            have hrel : p.blocks[q.cur]?.map DataB.numOfAcquired = some b2.numOfAcquired := by
              by_cases hjc : q.cur = p.cur
              · rw [hjc]
                rw [hjc, hqblocks, List.getElem?_set_self hcl] at hb2
                rw [hb]
                injection hb2 with hb2e
                rw [← hb2e]
                rfl
              · rw [hqblocks, List.getElem?_set_ne (fun he => hjc he.symm)] at hb2
                rw [hb2]
                rfl
            rw [hrel]
            rfl
          · intro j hj
            show (q.blocks.set q.cur _)[j]?.map DataB.numOfAcquired = _
            rw [List.getElem?_set_ne (fun he => hj he.symm)]
            by_cases hjc : j = p.cur
            · rw [hjc, hqblocks, List.getElem?_set_self hcl, hb]
              rfl
            · rw [hqblocks, List.getElem?_set_ne (fun he => hjc he.symm)]
    · -- first attempt succeeds
      rw [dataAcquire_eq_succ b _ hbf hcap] at hres
      simp only [] at hres
      injection hres with h1 h2
      injection h2 with h2
      subst h1
      subst h2
      refine ⟨rfl, ?_, ?_⟩
      · show (p.blocks.set p.cur _)[p.cur]?.map DataB.numOfAcquired = _
        rw [List.getElem?_set_self hcl, hb]
        rfl
      · intro j hj
        show (p.blocks.set p.cur _)[j]?.map DataB.numOfAcquired = _
        rw [List.getElem?_set_ne (fun he => hj he.symm)]

theorem updateCurrent_facts (p : PoolSt) :
    (updateCurrent p).blocks = p.blocks ∧ (updateCurrent p).dataBlockSize = p.dataBlockSize ∧
    (0 < p.blocks.length → (updateCurrent p).cur < p.blocks.length) := by
  unfold updateCurrent
  split
  · next h => exact ⟨rfl, rfl, fun _ => h⟩
  · exact ⟨rfl, rfl, fun h0 => h0⟩

theorem poolTryAcquire_preserves (p : PoolSt) (ts : Nat) (p1 : PoolSt) (r : Option HInfo)
    (hres : poolTryAcquire p ts = (p1, r)) :
    p1.dataBlockSize = p.dataBlockSize ∧ p1.blocks.length = p.blocks.length ∧
    (p.cur < p.blocks.length → p1.cur < p1.blocks.length) := by
  unfold poolTryAcquire at hres
  cases hb : p.blocks[p.cur]? with
  | none =>
    rw [hb] at hres
    simp only [] at hres
    injection hres with h1 h2
    subst h1
    exact ⟨rfl, rfl, fun h => h⟩
  | some b =>
    rw [hb] at hres
    simp only [] at hres
    cases hr : (dataAcquire b (blockCountFor ts)).2 with
    | some off =>
      rw [hr] at hres
      simp only [] at hres
      injection hres with h1 h2
      subst h1
      refine ⟨rfl, List.length_set _ _ _, fun h => ?_⟩
      rw [List.length_set]
      exact h
    | none =>
      rw [hr] at hres
      simp only [] at hres
      set q : PoolSt := updateCurrent
        { p with blocks := p.blocks.set p.cur (dataAcquire b (blockCountFor ts)).1 } with hq
      obtain ⟨hqb, hqd, hqc⟩ := updateCurrent_facts
        { p with blocks := p.blocks.set p.cur (dataAcquire b (blockCountFor ts)).1 }
      rw [← hq] at hqb hqd hqc
      simp only [List.length_set] at hqb hqc
      cases hb2 : q.blocks[q.cur]? with
      | none =>
        rw [hb2] at hres
        simp only [] at hres
        injection hres with h1 h2
        subst h1
        refine ⟨hqd, by rw [hqb, List.length_set], fun h => ?_⟩
        rw [hqb, List.length_set]
        exact hqc (by omega)
      | some b2 =>
        rw [hb2] at hres
        simp only [] at hres
        cases hr2 : (dataAcquire b2 (blockCountFor ts)).2 with
        | some off2 =>
          rw [hr2] at hres
          simp only [] at hres
          injection hres with h1 h2
          subst h1
          refine ⟨hqd, ?_, fun h => ?_⟩
          · show (q.blocks.set _ _).length = _
            rw [List.length_set, hqb, List.length_set]
          · show q.cur < (q.blocks.set _ _).length
            rw [List.length_set, hqb, List.length_set]
            exact hqc (by omega)
        | none =>
          rw [hr2] at hres
          simp only [] at hres
          injection hres with h1 h2
          subst h1
          refine ⟨hqd, ?_, fun h => ?_⟩
          · show (q.blocks.set _ _).length = _
            rw [List.length_set, hqb, List.length_set]
          · show q.cur < (q.blocks.set _ _).length
            rw [List.length_set, hqb, List.length_set]
            exact hqc (by omega)

theorem emplace_current_get (q : PoolSt) (b : DataB) (hcur : q.cur < q.blocks.length) :
    (emplaceAndUpdateCurrent q b).blocks[(emplaceAndUpdateCurrent q b).cur]? = some b := by
  unfold emplaceAndUpdateCurrent
  have hne : q.blocks.isEmpty = false := by
    cases hqb : q.blocks with
    | nil => rw [hqb] at hcur; simp at hcur
    | cons x xs => rfl
  rw [hne]
  simp only [Bool.false_eq_true, if_false]
  have hlt : (q.blocks.take (q.cur + 1)).length = q.cur + 1 := by
    rw [List.length_take]
    omega
  rw [List.getElem?_append, hlt, if_neg (by omega), Nat.sub_self]
  simp

theorem releaseUD_mkPoolUD (base : Nat) (info : HInfo) (m : Mem)
    (hso : info.storedOffset = info.allocOffset) :
    (releaseUD (mkPoolUD base info) m).1 = mkPoolUD base info ∧
    (releaseUD (mkPoolUD base info) m).2.acquiresAt base =
      (m.acquiresAt base + (SizeTMod - 1)) % SizeTMod ∧
    ∀ x, x ≠ base → (releaseUD (mkPoolUD base info) m).2.acquiresAt x = m.acquiresAt x := by
  have hhdr : base + HeaderSize + info.allocOffset * BlockSize -
      (HeaderSize + info.storedOffset * BlockSize) = base := by
    rw [hso]
    omega
  refine ⟨rfl, ?_, ?_⟩
  · show (fun x => if x = base + HeaderSize + info.allocOffset * BlockSize -
        (HeaderSize + info.storedOffset * BlockSize) then _ else m.acquiresAt x) base = _
    rw [hhdr]
    simp
    rw [show (mkPoolUD base info).offset = info.storedOffset from rfl, hhdr]
  · intro x hx
    show (fun y => if y = base + HeaderSize + info.allocOffset * BlockSize -
        (HeaderSize + info.storedOffset * BlockSize) then _ else m.acquiresAt y) x = _
    rw [hhdr]
    simp [hx]

/-- C8 counterexample: tryAcquire on a block whose bump offset is 2^32
serves the region at chunk 2^32 but stores static_cast<uint32_t>(2^32) = 0
in the handle's offset_ field, so release() resolves
data_ - (HeaderSize + 0) = base + 2^32 * 64, an address inside the block's
payload: the serving block's header counter at base stays untouched while
the counter bytes at that wrong address are decremented. -/
theorem pool_provenance_truncation_counterexample :
    (poolTryAcquire cxPool 16).2 = some cxInfo ∧
    cxInfo.storedOffset ≠ cxInfo.allocOffset ∧
    (releaseUD (mkPoolUD 4096 cxInfo) c8Mem).2.acquiresAt 4096 = 1 ∧
    (releaseUD (mkPoolUD 4096 cxInfo) c8Mem).2.acquiresAt (4096 + 4294967296 * 64) = 0 := by
  refine ⟨?_, ?_, ?_, ?_⟩ <;> decide

/-- C8 amended: provenance round trip for allocations whose chunk offset
fits the handle's uint32_t offset_ field (allocOffset < 2^32, which covers
every block of capacity up to 2^32 chunks, i.e. 256 GiB).  A successful
UniqueDataPool::tryAcquire from a pool block whose counter was n then
stores in offset_ exactly the chunk offset at which the allocation starts
(so the UniqueData at base + HeaderSize + allocOffset * BlockSize resolves
its header to base), bumps only that block's counter to n + 1, and one
release() decrements the counter at that header back to n without touching
any other address. -/
theorem pool_handle_provenance_round_trip (p : PoolSt) (ts : Nat) (p1 : PoolSt)
    (info : HInfo) (base n : Nat) (m : Mem)
    (hflag : ∀ b ∈ p.blocks, b.flag = 0)
    (hres : poolTryAcquire p ts = (p1, some info))
    (hao : info.allocOffset < U32Mod)
    (hn : p.blocks[info.blockIdx]?.map DataB.numOfAcquired = some n)
    (hnM : n < SizeTMod)
    (hm : m.acquiresAt base = (n + 1) % SizeTMod) :
    info.storedOffset = info.allocOffset ∧
    p1.blocks[info.blockIdx]?.map DataB.numOfAcquired = some ((n + 1) % SizeTMod) ∧
    (∀ j, j ≠ info.blockIdx →
      p1.blocks[j]?.map DataB.numOfAcquired = p.blocks[j]?.map DataB.numOfAcquired) ∧
    (releaseUD (mkPoolUD base info) m).1 = mkPoolUD base info ∧
    (releaseUD (mkPoolUD base info) m).2.acquiresAt base = n ∧
    ∀ x, x ≠ base → (releaseUD (mkPoolUD base info) m).2.acquiresAt x = m.acquiresAt x := by
  obtain ⟨hsom, hcnt, hothers⟩ := pool_tryAcquire_provenance p ts p1 info hflag hres
  have hso : info.storedOffset = info.allocOffset := by
    rw [hsom]
    exact Nat.mod_eq_of_lt hao
  obtain ⟨hu, hdec, hoth2⟩ := releaseUD_mkPoolUD base info m hso
  refine ⟨hso, ?_, hothers, hu, ?_, hoth2⟩
  · rw [hcnt, hn]
    rfl
  · rw [hdec, hm]
    have hM : SizeTMod = 18446744073709551616 := by
      unfold SizeTMod
      norm_num
    rw [hM] at hnM ⊢
    omega

/-- Witness for pool_handle_provenance_round_trip: one fresh 4-chunk block,
a 16-byte payload (1 chunk), block arena base 4096, counter n = 0. -/
theorem pool_handle_provenance_round_trip_witness :
    (∀ b ∈ c8Pool.blocks, b.flag = 0) ∧
    poolTryAcquire c8Pool 16 = (c8Pool1, some c8Info) ∧
    c8Info.allocOffset < U32Mod ∧
    c8Pool.blocks[c8Info.blockIdx]?.map DataB.numOfAcquired = some 0 ∧
    0 < SizeTMod ∧
    c8Mem.acquiresAt 4096 = (0 + 1) % SizeTMod ∧
    (releaseUD (mkPoolUD 4096 c8Info) c8Mem).2.acquiresAt 4096 = 0 :=
  ⟨by decide, by decide, by decide, by decide, by decide, by decide,
    (pool_handle_provenance_round_trip c8Pool 16 c8Pool1 c8Info 4096 0 c8Mem
      (by decide) (by decide) (by decide) (by decide) (by decide) (by decide)).2.2.2.2.1⟩

/-- C6 amended: acquire returns a non-null handle whenever the growth
allocation succeeds and the request fits in one freshly allocated block
(its chunk count is at most the pool's per-block chunk count); for larger
requests acquire returns null even though the allocator succeeded. -/
theorem pool_acquire_nonnull_when_fits (p : PoolSt) (ts : Nat)
    (hcur : p.cur < p.blocks.length) (hfit : blockCountFor ts ≤ p.dataBlockSize) :
    (poolAcquire p ts true).2.isSome := by
  unfold poolAcquire
  cases hres : poolTryAcquire p ts with
  | mk p1 r =>
    cases r with
    | some h => simp
    | none =>
      simp only [if_true]
      obtain ⟨hdb, _, hcurp⟩ := poolTryAcquire_preserves p ts p1 none hres
      have hcur1 : p1.cur < p1.blocks.length := hcurp hcur
      have hget := emplace_current_get p1 (freshData p1.dataBlockSize) hcur1
      unfold poolTryAcquire
      rw [hget]
      simp only []
      rw [dataAcquire_eq_succ (freshData p1.dataBlockSize) (blockCountFor ts) rfl
        (by show ¬ blockCountFor ts > p1.dataBlockSize - 0; rw [hdb]; omega)]
      simp

/-- Witness for pool_acquire_nonnull_when_fits: a one-block pool of
one-chunk blocks and a 16-byte payload, which needs exactly one chunk. -/
theorem pool_acquire_nonnull_when_fits_witness :
    ({ dataBlockSize := 1, blocks := [freshData 1], cur := 0 } : PoolSt).cur <
      ({ dataBlockSize := 1, blocks := [freshData 1], cur := 0 } : PoolSt).blocks.length ∧
    blockCountFor 16 ≤
      ({ dataBlockSize := 1, blocks := [freshData 1], cur := 0 } : PoolSt).dataBlockSize ∧
    (poolAcquire { dataBlockSize := 1, blocks := [freshData 1], cur := 0 } 16 true).2.isSome :=
  ⟨by decide, by decide,
    pool_acquire_nonnull_when_fits { dataBlockSize := 1, blocks := [freshData 1], cur := 0 } 16
      (by decide) (by decide)⟩

end MPSC
